import Mathlib

/-!
A shallow embedding of the pyppl expression-semantics engine
(src/pyppl/ast.py, src/pyppl/environment.py, src/pyppl/params.py).

Python floats are modelled as exact rationals; every concrete constant
exercised below (0, 1/2, 1, 3/2, -1) is dyadic, so no rounding behaviour
is hidden by this choice.  Python sets of nodes are modelled as
duplicate-free lists in first-insertion order; every sum taken over such
a list is a sum of rationals and is therefore independent of iteration
order, which Python leaves unspecified.  Exceptions are modelled with
`Except Err`, and the mutation of the environment's scope stack is made
explicit: each semantic function returns its result together with the
environment as it stands when the call exits (normally or exceptionally).
-/

namespace Pyppl

/-- Errors raised by the Python code, one constructor per raise site:
`rebind` for EvalEnv.add_binding's ValueError, `unbound` for
EvalEnv.get_binding's ValueError, `keyError` for the dict KeyError in
EvalEnv.get_param, `truthiness` for PureNode.__bool__'s ValueError,
`thetaRange` for FlipNode.__post_init__'s ValueError, `indexError` for
list.pop / scopes[-1] on an empty scope stack, `attributeError` for a
Python attribute lookup that finds no such attribute, and
`undefinedParam` for UndefinedParamError in Program.sample. -/
inductive Err where
  | rebind (name : String)
  | unbound (name : String)
  | keyError (name : String)
  | truthiness
  | thetaRange
  | indexError
  | attributeError (name : String)
  | undefinedParam
  deriving DecidableEq, Repr

/-- Pure (p) nodes of ast.py: VariableNode, TrueNode, FalseNode,
IfElseNode, ConsNode, NilNode.  Structural equality mirrors the frozen
dataclass equality of the source. -/
inductive PureNode where
  | VariableNode (name : String)
  | TrueNode
  | FalseNode
  | IfElseNode (condition true_branch false_branch : PureNode)
  | ConsNode (head tail : PureNode)
  | NilNode
  deriving DecidableEq, Repr

/-- One scope of the environment: a Python dict from names to bound
values (EvalEnv.scope_factory = dict).  Keys are unique because
add_binding refuses to insert a name already present. -/
abbrev Scope := List (String × PureNode)

/-- Lookup in a single scope (Python `name in scope` / `scope[name]`). -/
def scopeLookup : Scope → String → Option PureNode
  | [], _ => none
  | (k, v) :: rest, name => if k = name then some v else scopeLookup rest name

/-- EvalEnv of ast.py: the scope stack of BaseEnv plus the parameter
vector.  The innermost scope is stored first here; Python stores the
outermost first and addresses the innermost as scopes[-1], so push and
pop act on the head of this list and get_binding scans it in order. -/
structure EvalEnv where
  scopes : List Scope
  params : List (String × ℚ)
  deriving DecidableEq, Repr

/-- BaseEnv.add_scope: push a fresh empty scope. -/
def EvalEnv.add_scope (env : EvalEnv) : EvalEnv :=
  { env with scopes := [] :: env.scopes }

/-- BaseEnv.remove_scope: pop the innermost scope.  Python's list.pop
raises IndexError on an empty stack; every call site in ast.py pops a
scope it previously pushed, and List.tail is the identity on []. -/
def EvalEnv.remove_scope (env : EvalEnv) : EvalEnv :=
  { env with scopes := env.scopes.tail }

/-- EvalEnv.add_binding: insert into the innermost scope, refusing a
name already bound there (ValueError), IndexError if the stack is
empty (Python's scopes[-1]). -/
def EvalEnv.add_binding (env : EvalEnv) (name : String) (val : PureNode) :
    Except Err EvalEnv :=
  match env.scopes with
  | [] => .error .indexError
  | local_scope :: rest =>
    match scopeLookup local_scope name with
    | some _ => .error (.rebind name)
    | none => .ok { env with scopes := ((name, val) :: local_scope) :: rest }

/-- Innermost-first scan used by EvalEnv.get_binding
(`for scope in reversed(self.scopes)`). -/
def lookupScopes : List Scope → String → Except Err PureNode
  | [], name => .error (.unbound name)
  | s :: ss, name =>
    match scopeLookup s name with
    | some v => .ok v
    | none => lookupScopes ss name

/-- EvalEnv.get_binding: innermost-first lookup, ValueError when the
name is bound in no scope. -/
def EvalEnv.get_binding (env : EvalEnv) (name : String) : Except Err PureNode :=
  lookupScopes env.scopes name

/-- Lookup in the parameter vector (a Python dict). -/
def paramLookup : List (String × ℚ) → String → Option ℚ
  | [], _ => none
  | (k, v) :: rest, name => if k = name then some v else paramLookup rest name

/-- EvalEnv.get_param: `self.params[name]`, KeyError when absent. -/
def EvalEnv.get_param (env : EvalEnv) (name : String) : Except Err ℚ :=
  match paramLookup env.params name with
  | some v => .ok v
  | none => .error (.keyError name)

/-- The environment as seen inside `with env.local_binding(name, val)`:
a fresh scope holding exactly the one binding, pushed onto env. -/
def envWith (env : EvalEnv) (name : String) (val : PureNode) : EvalEnv :=
  { env with scopes := [(name, val)] :: env.scopes }

/-- PureNode.eval and its overrides: VariableNode resolves via
get_binding; TrueNode, FalseNode, NilNode are canonical; IfElseNode
evaluates the condition, coerces it with PureNode.__bool__ (ValueError
unless it is TrueNode or FalseNode) and evaluates exactly one branch;
ConsNode evaluates both children. -/
def PureNode.eval : PureNode → EvalEnv → Except Err PureNode
  | .VariableNode name, env => env.get_binding name
  | .TrueNode, _ => .ok .TrueNode
  | .FalseNode, _ => .ok .FalseNode
  | .NilNode, _ => .ok .NilNode
  | .IfElseNode c t f, env => do
    let cv ← c.eval env
    match cv with
    | .TrueNode => t.eval env
    | .FalseNode => f.eval env
    | _ => .error .truthiness
  | .ConsNode h t, env => do
    let hv ← h.eval env
    let tv ← t.eval env
    .ok (.ConsNode hv tv)

/-- PureNode.infer: `float(self.eval(env) == val.eval(env))`, the left
operand evaluated first. -/
def PureNode.infer (self : PureNode) (env : EvalEnv) (val : PureNode) :
    Except Err ℚ := do
  let a ← self.eval env
  let b ← val.eval env
  .ok (if a = b then 1 else 0)

/-- The theta field of FlipNode: a float literal or a parameter name. -/
inductive Theta where
  | lit (q : ℚ)
  | param (name : String)
  deriving DecidableEq, Repr

/-- Effectful (e) nodes of ast.py: ReturnNode, FlipNode, SequenceNode. -/
inductive EffectfulNode where
  | ReturnNode (value : PureNode)
  | FlipNode (theta : Theta)
  | SequenceNode (variable_name : String)
      (assignment_expr next_expr : EffectfulNode)
  deriving DecidableEq, Repr

/-- FlipNode.get_theta: a parameter name is resolved through
EvalEnv.get_param with no range check; a literal is used as is. -/
def get_theta (theta : Theta) (env : EvalEnv) : Except Err ℚ :=
  match theta with
  | .param s => env.get_param s
  | .lit q => .ok q

/-- FlipNode.__post_init__: a float theta outside [0, 1] raises
ValueError at construction; a string (parameter name) theta is accepted
without any check. -/
def mkFlipNode (theta : Theta) : Except Err EffectfulNode :=
  match theta with
  | .lit q => if 0 ≤ q ∧ q ≤ 1 then .ok (.FlipNode (.lit q)) else .error .thetaRange
  | .param s => .ok (.FlipNode (.param s))

/-- Python set union `poss |= s` on the duplicate-free-list model:
append the members of s not already present. -/
def setUnion (a b : List PureNode) : List PureNode :=
  a ++ b.filter (fun v => decide (¬ v ∈ a))

/-- The loop of SequenceNode.possible_vals, abstracted over the
possible_vals of the continuation (f below).  Each iteration enters
`with env.local_binding(variable_name, val)`: push a fresh scope, bind
into it (which cannot fail, the scope being empty), run the body, and
pop the scope again on every exit path (the context manager's
try/finally). -/
def pvLoop (x : String) (f : EvalEnv → (Except Err (List PureNode)) × EvalEnv) :
    List PureNode → List PureNode → EvalEnv → (Except Err (List PureNode)) × EvalEnv
  | [], acc, env => (.ok acc, env)
  | v :: vs, acc, env =>
    let env1 := env.add_scope
    match env1.add_binding x v with
    | .error e => (.error e, env1.remove_scope)
    | .ok env2 =>
      match f env2 with
      | (.error e, env3) => (.error e, env3.remove_scope)
      | (.ok s, env3) => pvLoop x f vs (setUnion acc s) env3.remove_scope

/-- The possible_vals methods.  ReturnNode: the singleton of the
evaluated payload.  FlipNode: both booleans, unconditionally.
SequenceNode: for each possible value of assignment_expr, union in the
possible values of next_expr under the local binding; the loop is
pvLoop.  The second component is the environment at exit. -/
def possible_vals : EffectfulNode → EvalEnv → (Except Err (List PureNode)) × EvalEnv
  | .ReturnNode v, env =>
    match v.eval env with
    | .ok w => (.ok [w], env)
    | .error e => (.error e, env)
  | .FlipNode _, env => (.ok [.TrueNode, .FalseNode], env)
  | .SequenceNode x bound rest, env =>
    match possible_vals bound env with
    | (.error e, env1) => (.error e, env1)
    | (.ok vs, env1) => pvLoop x (possible_vals rest) vs [] env1

/-- The loop of SequenceNode.infer, abstracted over the infer of the
assignment expression (fb) and of the continuation (fr), with the same
context-manager discipline as pvLoop. -/
def inferLoop (x : String) (fb fr : EvalEnv → PureNode → (Except Err ℚ) × EvalEnv)
    (val : PureNode) :
    List PureNode → ℚ → EvalEnv → (Except Err ℚ) × EvalEnv
  | [], prob, env => (.ok prob, env)
  | v :: vs, prob, env =>
    let env1 := env.add_scope
    match env1.add_binding x v with
    | .error e => (.error e, env1.remove_scope)
    | .ok env2 =>
      match fb env2 v with
      | (.error e, env3) => (.error e, env3.remove_scope)
      | (.ok p1, env3) =>
        match fr env3 val with
        | (.error e, env4) => (.error e, env4.remove_scope)
        | (.ok p2, env4) =>
          inferLoop x fb fr val vs (prob + p1 * p2) env4.remove_scope

/-- The infer methods.  ReturnNode: PureNode.infer of the payload.
FlipNode: evaluate the target, then theta, 1 - theta or 0.
SequenceNode: loop over possible_vals of assignment_expr accumulating
`bound_val_prob * next_expr.infer(env, val)`; NOTE that, as in the
source (ast.py lines 517-520), bound_val_prob is computed INSIDE the
`with env.local_binding(...)` block, that is, with the new binding for
variable_name already in scope: inferLoop receives `infer bound` as fb
and applies it to the extended environment. -/
def infer : EffectfulNode → EvalEnv → PureNode → (Except Err ℚ) × EvalEnv
  | .ReturnNode v, env, val => (v.infer env val, env)
  | .FlipNode theta, env, val =>
    match val.eval env with
    | .error e => (.error e, env)
    | .ok .TrueNode => (get_theta theta env, env)
    | .ok .FalseNode =>
      (match get_theta theta env with
       | .ok q => .ok (1 - q)
       | .error e => .error e, env)
    | .ok _ => (.ok 0, env)
  | .SequenceNode x bound rest, env, val =>
    match possible_vals bound env with
    | (.error e, env1) => (.error e, env1)
    | (.ok vs, env1) => inferLoop x (infer bound) (infer rest) val vs 0 env1

/-- The loop of SequenceNode.deriv, abstracted over deriv of the
continuation (dr), infer of the continuation (fr), deriv of the
assignment expression (db) and infer of the assignment expression (fb).
del_e2 and e2 are computed inside the `with` block, del_e1 and e1 after
it, on the restored environment (ast.py lines 529-535). -/
def derivLoop (x : String)
    (db dr : EvalEnv → String → PureNode → (Except Err ℚ) × EvalEnv)
    (fb fr : EvalEnv → PureNode → (Except Err ℚ) × EvalEnv)
    (p : String) (val : PureNode) :
    List PureNode → ℚ → EvalEnv → (Except Err ℚ) × EvalEnv
  | [], acc, env => (.ok acc, env)
  | v :: vs, acc, env =>
    let env1 := env.add_scope
    match env1.add_binding x v with
    | .error e => (.error e, env1.remove_scope)
    | .ok env2 =>
      match dr env2 p val with
      | (.error e, env3) => (.error e, env3.remove_scope)
      | (.ok del_e2, env3) =>
        match fr env3 val with
        | (.error e, env4) => (.error e, env4.remove_scope)
        | (.ok e2, env4) =>
          let env5 := env4.remove_scope
          match db env5 p v with
          | (.error e, env6) => (.error e, env6)
          | (.ok del_e1, env6) =>
            match fb env6 v with
            | (.error e, env7) => (.error e, env7)
            | (.ok e1, env7) =>
              derivLoop x db dr fb fr p val vs
                (acc + (del_e1 * e2 + e1 * del_e2)) env7

/-- The deriv methods.  EffectfulNode.deriv (inherited by ReturnNode)
returns 0.  FlipNode: 0 for a literal theta or a different parameter
name; for the matching name, evaluate the target and return 1, -1 or 0.
SequenceNode: the product rule over the possible values, via
derivLoop. -/
def deriv : EffectfulNode → EvalEnv → String → PureNode → (Except Err ℚ) × EvalEnv
  | .ReturnNode _, env, _, _ => (.ok 0, env)
  | .FlipNode theta, env, p, val =>
    match theta with
    | .lit _ => (.ok 0, env)
    | .param s =>
      if s ≠ p then (.ok 0, env)
      else
        match val.eval env with
        | .error e => (.error e, env)
        | .ok .TrueNode => (.ok 1, env)
        | .ok .FalseNode => (.ok (-1), env)
        | .ok _ => (.ok 0, env)
  | .SequenceNode x bound rest, env, p, val =>
    match possible_vals bound env with
    | (.error e, env1) => (.error e, env1)
    | (.ok vs, env1) =>
      derivLoop x (deriv bound) (deriv rest) (infer bound) (infer rest) p val vs 0 env1

/-- The helper `boolean(val)` of ast.py. -/
def boolean (b : Bool) : PureNode := if b then .TrueNode else .FalseNode

/-- The sample methods.  Randomness is modelled as an explicit stream
rng together with the index of the next draw, so each FlipNode consumes
one draw (random.random() is evaluated before get_theta, so the draw is
consumed even when theta fails to resolve).  SequenceNode.sample binds
the sampled value into the CURRENT scope via add_binding: no scope is
pushed, the binding persists, and a name already bound there raises the
rebinding ValueError. -/
def sample : EffectfulNode → EvalEnv → (Nat → ℚ) → Nat →
    (Except Err PureNode) × EvalEnv × Nat
  | .ReturnNode v, env, _, ix => (v.eval env, env, ix)
  | .FlipNode theta, env, rng, ix =>
    let r := rng ix
    match get_theta theta env with
    | .error e => (.error e, env, ix + 1)
    | .ok q => (.ok (boolean (decide (r < q))), env, ix + 1)
  | .SequenceNode x bound rest, env, rng, ix =>
    match sample bound env rng ix with
    | (.error e, env1, ix1) => (.error e, env1, ix1)
    | (.ok bv, env1, ix1) =>
      match env1.add_binding x bv with
      | .error e => (.error e, env1, ix1)
      | .ok env2 => sample rest env2 rng ix1

/-- EffectfulNode.params (a cached_property): ReturnNode contributes
nothing (PureNode.params is the empty set), FlipNode its symbolic name
if any, SequenceNode the union of its children's sets. -/
def EffectfulNode.params : EffectfulNode → List String
  | .ReturnNode _ => []
  | .FlipNode (.lit _) => []
  | .FlipNode (.param s) => [s]
  | .SequenceNode _ b r =>
    b.params ++ r.params.filter (fun s => decide (¬ s ∈ b.params))

/-- Program of ast.py: global definitions plus a root effectful
expression.  Binding values are modelled as pure nodes (every binding
created by the semantic functions themselves is one). -/
structure Program where
  defns : List (String × PureNode)
  expr : EffectfulNode

/-- Program.env / the EvalEnv constructor: one initial scope holding
the definitions, plus the parameter vector. -/
def Program.env (p : Program) (params : List (String × ℚ)) : EvalEnv :=
  { scopes := [p.defns], params := params }

/-- Program.infer: inference over the root expression in a fresh
environment. -/
def Program.infer (p : Program) (params : List (String × ℚ)) (val : PureNode) :
    Except Err ℚ :=
  (Pyppl.infer p.expr (p.env params) val).1

/-- The attribute names bound by class ParamVector in params.py: its
methods and classmethods.  The class subclasses dict and defines NO
`param_names` member anywhere in the file, so the attribute lookup
`params.param_names` in Program.sample raises AttributeError. -/
def paramVectorAttrNames : List String :=
  ["zero", "random", "squared_l2_norm", "_check_keys_match"]

/-- The loop of Program.sample, modelled from the spec for the branch
that the AttributeError makes unreachable: k draws, each in a fresh
environment seeded with the definitions, sharing one randomness
stream. -/
def sampleK (p : Program) (params : List (String × ℚ)) :
    Nat → (Nat → ℚ) → Nat → Except Err (List PureNode)
  | 0, _, _ => .ok []
  | k + 1, rng, ix =>
    match sample p.expr (p.env params) rng ix with
    | (.error e, _, _) => .error e
    | (.ok v, _, ix1) => (sampleK p params k rng ix1).map (fun l => v :: l)

/-- Program.sample (ast.py lines 127-146).  Its first statement
evaluates `self.expr.params - params.param_names`; the attribute lookup
on the ParamVector happens before the subtraction and before any
sampling, and ParamVector defines no such attribute, so the call raises
AttributeError unconditionally.  The unreachable branch is modelled
from the spec: param_names would be the key set, undefined parameters
would raise UndefinedParamError, and otherwise k draws are returned. -/
def Program.sample (p : Program) (params : List (String × ℚ)) (k : Nat)
    (rng : Nat → ℚ) : Except Err (List PureNode) :=
  if paramVectorAttrNames.contains "param_names" then
    let undefined :=
      p.expr.params.filter (fun s => decide (¬ s ∈ params.map Prod.fst))
    if undefined = [] then sampleK p params k rng 0
    else .error .undefinedParam
  else .error (.attributeError "param_names")

/-- Modelled from the spec: the defining law of SequenceNode inference,
the sum over v in possibleValues(bound, env) of infer(bound, env, v)
times infer(rest, env with x bound to v, target), where
infer(bound, env, v) is taken in the ORIGINAL environment env, as the
spec, the comment inside SequenceNode.infer and the structure of
SequenceNode.deriv all state. -/
def inferSeqLaw (x : String) (bound rest : EffectfulNode) (env : EvalEnv)
    (target : PureNode) : Except Err ℚ :=
  (possible_vals bound env).1.bind (fun vs =>
    vs.foldl (fun acc v => do
      let a ← acc
      let p1 ← (infer bound env v).1
      let p2 ← (infer rest (envWith env x v) target).1
      pure (a + p1 * p2)) (.ok 0))

/-!  Concrete inputs used by the theorems below. -/

/-- An environment with one empty scope and no parameters
(a fresh EvalEnv over an empty ParamVector and no definitions). -/
def env0 : EvalEnv := { scopes := [[]], params := [] }

/-- The inner sequence `y <- flip 0.5; return (if y then x else ff)`:
its set of possible values depends on the binding of x, which it reads
as a free variable. -/
def A4 : EffectfulNode :=
  .SequenceNode "y" (.FlipNode (.lit (1/2)))
    (.ReturnNode (.IfElseNode (.VariableNode "y") (.VariableNode "x") .FalseNode))

/-- The program `x <- (y <- flip 0.5; return (if y then x else ff)); return x`,
whose assignment expression mentions the very name x that the sequence
re-binds. -/
def P4 : EffectfulNode := .SequenceNode "x" A4 (.ReturnNode (.VariableNode "x"))

/-- The environment for P4: the outer scope binds x to True (as the
initial definitions scope of `Program(defns={"x": TrueNode()}, expr=P4)`
would), no parameters. -/
def env4 : EvalEnv := { scopes := [[("x", .TrueNode)]], params := [] }

/-- An environment whose parameter vector maps p to 1.5, a value
outside [0, 1], which ParamVector accepts (it converts values to float
and checks nothing else). -/
def env15 : EvalEnv := { scopes := [[]], params := [("p", 3/2)] }

/-- A non-canonical bound value: the reducible conditional
`if tt then tt else ff`. -/
def C9bind : PureNode := .IfElseNode .TrueNode .TrueNode .FalseNode

/-- An environment binding a to the unevaluated conditional C9bind, as
`Program(defns={"a": IfElseNode(...)}).env(...)` produces, since
definitions are installed in the base scope without being evaluated. -/
def env9 : EvalEnv := { scopes := [[("a", C9bind)]], params := [] }

/-- An environment whose only visible binding is already canonical. -/
def env9c : EvalEnv := { scopes := [[("x", .TrueNode)]], params := [] }

/-- The program `x <- flip 0.5; x <- flip 0.5; return x`, which re-uses
the binder name x in a nested sequence. -/
def prog10 : EffectfulNode :=
  .SequenceNode "x" (.FlipNode (.lit (1/2)))
    (.SequenceNode "x" (.FlipNode (.lit (1/2)))
      (.ReturnNode (.VariableNode "x")))

/-- An environment carrying the single parameter p at 0.5. -/
def env5w : EvalEnv := { scopes := [[]], params := [("p", 1/2)] }

/-!  Helper lemmas. -/

/-- Binding into a freshly pushed scope always succeeds and yields
exactly the local_binding environment. -/
theorem add_binding_add_scope (env : EvalEnv) (x : String) (v : PureNode) :
    (env.add_scope).add_binding x v = .ok (envWith env x v) := rfl

/-- Popping the local_binding scope restores the environment on the
nose. -/
theorem remove_scope_envWith (env : EvalEnv) (x : String) (v : PureNode) :
    (envWith env x v).remove_scope = env := rfl

/-- Two-component characterisation of a pair. -/
theorem pairEq {a : Type} (t : (Except Err a) × EvalEnv) (r : Except Err a)
    (env : EvalEnv) (h1 : t.1 = r) (h2 : t.2 = env) : t = (r, env) := by
  cases t
  simp_all

/-- pvLoop restores the environment whenever its body function does. -/
theorem pvLoop_snd (x : String)
    (f : EvalEnv → (Except Err (List PureNode)) × EvalEnv)
    (hf : ∀ env, (f env).2 = env) :
    ∀ (l acc : List PureNode) (env : EvalEnv), (pvLoop x f l acc env).2 = env := by
  intro l
  induction l with
  | nil => intro acc env; simp [pvLoop]
  | cons v vs ih =>
    intro acc env
    simp only [pvLoop, add_binding_add_scope]
    rcases h : f (envWith env x v) with ⟨r, env2⟩
    have h2 : env2 = envWith env x v := by
      have hh := hf (envWith env x v); rw [h] at hh; exact hh
    subst h2
    cases r with
    | error e => simp [h, remove_scope_envWith]
    | ok s => simp [h, remove_scope_envWith, ih]

/-- Every possible_vals call leaves the environment exactly as it found
it, on normal and on exceptional exit alike. -/
theorem possible_vals_snd :
    ∀ (n : EffectfulNode) (env : EvalEnv), (possible_vals n env).2 = env := by
  intro n
  induction n with
  | ReturnNode v =>
    intro env
    simp only [possible_vals]
    cases PureNode.eval v env <;> simp
  | FlipNode theta =>
    intro env
    simp [possible_vals]
  | SequenceNode x bound rest ihb ihr =>
    intro env
    simp only [possible_vals]
    rcases hb : possible_vals bound env with ⟨rb, envb⟩
    have hb2 : envb = env := by
      have hh := ihb env; rw [hb] at hh; exact hh
    subst hb2
    cases rb with
    | error e => simp [hb]
    | ok vs => simp [hb, pvLoop_snd x (possible_vals rest) ihr]

/-- inferLoop restores the environment whenever its body functions do. -/
theorem inferLoop_snd (x : String)
    (fb fr : EvalEnv → PureNode → (Except Err ℚ) × EvalEnv)
    (hfb : ∀ env v, (fb env v).2 = env) (hfr : ∀ env v, (fr env v).2 = env)
    (val : PureNode) :
    ∀ (l : List PureNode) (prob : ℚ) (env : EvalEnv),
      (inferLoop x fb fr val l prob env).2 = env := by
  intro l
  induction l with
  | nil => intro prob env; simp [inferLoop]
  | cons v vs ih =>
    intro prob env
    simp only [inferLoop, add_binding_add_scope]
    rcases h1 : fb (envWith env x v) v with ⟨r1, env3⟩
    have h1e : env3 = envWith env x v := by
      have hh := hfb (envWith env x v) v; rw [h1] at hh; exact hh
    subst h1e
    cases r1 with
    | error e => simp [h1, remove_scope_envWith]
    | ok p1 =>
      rcases h2 : fr (envWith env x v) val with ⟨r2, env4⟩
      have h2e : env4 = envWith env x v := by
        have hh := hfr (envWith env x v) val; rw [h2] at hh; exact hh
      subst h2e
      cases r2 with
      | error e => simp [h1, h2, remove_scope_envWith]
      | ok p2 => simp [h1, h2, remove_scope_envWith, ih]

/-- Every infer call leaves the environment exactly as it found it, on
normal and on exceptional exit alike. -/
theorem infer_snd :
    ∀ (n : EffectfulNode) (env : EvalEnv) (val : PureNode),
      (infer n env val).2 = env := by
  intro n
  induction n with
  | ReturnNode v => intro env val; simp [infer]
  | FlipNode theta =>
    intro env val
    simp only [infer]
    cases PureNode.eval val env with
    | error e => simp
    | ok w => cases w <;> simp
  | SequenceNode x bound rest ihb ihr =>
    intro env val
    simp only [infer]
    rcases hb : possible_vals bound env with ⟨rb, envb⟩
    have hb2 : envb = env := by
      have hh := possible_vals_snd bound env; rw [hb] at hh; exact hh
    subst hb2
    cases rb with
    | error e => simp [hb]
    | ok vs => simp [hb, inferLoop_snd x (infer bound) (infer rest) ihb ihr val]

/-- derivLoop restores the environment whenever its body functions do. -/
theorem derivLoop_snd (x : String)
    (db dr : EvalEnv → String → PureNode → (Except Err ℚ) × EvalEnv)
    (fb fr : EvalEnv → PureNode → (Except Err ℚ) × EvalEnv)
    (hdb : ∀ env p v, (db env p v).2 = env) (hdr : ∀ env p v, (dr env p v).2 = env)
    (hfb : ∀ env v, (fb env v).2 = env) (hfr : ∀ env v, (fr env v).2 = env)
    (p : String) (val : PureNode) :
    ∀ (l : List PureNode) (acc : ℚ) (env : EvalEnv),
      (derivLoop x db dr fb fr p val l acc env).2 = env := by
  intro l
  induction l with
  | nil => intro acc env; simp [derivLoop]
  | cons v vs ih =>
    intro acc env
    simp only [derivLoop, add_binding_add_scope]
    rcases h1 : dr (envWith env x v) p val with ⟨r1, env3⟩
    have h1e : env3 = envWith env x v := by
      have hh := hdr (envWith env x v) p val; rw [h1] at hh; exact hh
    subst h1e
    cases r1 with
    | error e => simp [h1, remove_scope_envWith]
    | ok del_e2 =>
      rcases h2 : fr (envWith env x v) val with ⟨r2, env4⟩
      have h2e : env4 = envWith env x v := by
        have hh := hfr (envWith env x v) val; rw [h2] at hh; exact hh
      subst h2e
      cases r2 with
      | error e => simp [h1, h2, remove_scope_envWith]
      | ok e2 =>
        rcases h3 : db env p v with ⟨r3, env6⟩
        have h3e : env6 = env := by
          have hh := hdb env p v; rw [h3] at hh; exact hh
        rw [h3e] at h3
        cases r3 with
        | error e => simp [h1, h2, h3, remove_scope_envWith]
        | ok del_e1 =>
          rcases h4 : fb env v with ⟨r4, env7⟩
          have h4e : env7 = env := by
            have hh := hfb env v; rw [h4] at hh; exact hh
          rw [h4e] at h4
          cases r4 with
          | error e => simp [h1, h2, h3, h4, remove_scope_envWith]
          | ok e1 => simp [h1, h2, h3, h4, remove_scope_envWith, ih]

/-- Every deriv call leaves the environment exactly as it found it, on
normal and on exceptional exit alike. -/
theorem deriv_snd :
    ∀ (n : EffectfulNode) (env : EvalEnv) (p : String) (val : PureNode),
      (deriv n env p val).2 = env := by
  intro n
  induction n with
  | ReturnNode v => intro env p val; simp [deriv]
  | FlipNode theta =>
    intro env p val
    cases theta with
    | lit q => simp [deriv]
    | param s =>
      simp only [deriv]
      by_cases hs : s = p
      · subst hs
        simp only [ne_eq, not_true_eq_false, if_false]
        cases PureNode.eval val env with
        | error e => simp
        | ok w => cases w <;> simp
      · simp [hs]
  | SequenceNode x bound rest ihb ihr =>
    intro env p val
    simp only [deriv]
    rcases hb : possible_vals bound env with ⟨rb, envb⟩
    have hb2 : envb = env := by
      have hh := possible_vals_snd bound env; rw [hb] at hh; exact hh
    subst hb2
    cases rb with
    | error e => simp [hb]
    | ok vs =>
      simp [hb, derivLoop_snd x (deriv bound) (deriv rest) (infer bound)
        (infer rest) ihb ihr (infer_snd bound) (infer_snd rest) p val]

/-- The deriv loop computes the product-rule sum when every sub-call
succeeds: each iteration restores the environment, so deriv and infer
of the assignment expression run on the original env and deriv and
infer of the continuation run on env extended with the binding. -/
theorem derivLoop_val (x : String) (bound rest : EffectfulNode) (p : String)
    (val : PureNode) (env : EvalEnv) (vs : List PureNode)
    (d1 e1 d2 e2 : PureNode → ℚ)
    (hd1 : ∀ v ∈ vs, (deriv bound env p v).1 = .ok (d1 v))
    (he1 : ∀ v ∈ vs, (infer bound env v).1 = .ok (e1 v))
    (hd2 : ∀ v ∈ vs, (deriv rest (envWith env x v) p val).1 = .ok (d2 v))
    (he2 : ∀ v ∈ vs, (infer rest (envWith env x v) val).1 = .ok (e2 v)) :
    ∀ (l : List PureNode), (∀ v ∈ l, v ∈ vs) → ∀ acc : ℚ,
      derivLoop x (deriv bound) (deriv rest) (infer bound) (infer rest) p val l acc env =
        (.ok (acc + (l.map (fun v => d1 v * e2 v + e1 v * d2 v)).sum), env) := by
  intro l
  induction l with
  | nil => intro _ acc; simp [derivLoop]
  | cons v l2 ih =>
    intro hl acc
    have hv : v ∈ vs := hl v (List.mem_cons_self v l2)
    have hl2 : ∀ w ∈ l2, w ∈ vs := fun w hw => hl w (List.mem_cons_of_mem v hw)
    have hder2 : deriv rest (envWith env x v) p val = (.ok (d2 v), envWith env x v) :=
      pairEq _ _ _ (hd2 v hv) (deriv_snd rest (envWith env x v) p val)
    have hinf2 : infer rest (envWith env x v) val = (.ok (e2 v), envWith env x v) :=
      pairEq _ _ _ (he2 v hv) (infer_snd rest (envWith env x v) val)
    have hder1 : deriv bound env p v = (.ok (d1 v), env) :=
      pairEq _ _ _ (hd1 v hv) (deriv_snd bound env p v)
    have hinf1 : infer bound env v = (.ok (e1 v), env) :=
      pairEq _ _ _ (he1 v hv) (infer_snd bound env v)
    simp only [derivLoop, add_binding_add_scope, hder2, hinf2, remove_scope_envWith,
      hder1, hinf1]
    rw [ih hl2 (acc + (d1 v * e2 v + e1 v * d2 v))]
    simp only [List.map_cons, List.sum_cons, Prod.mk.injEq, Except.ok.injEq, and_true]
    ring

/-!  Claim theorems. -/

/-- Claim C2: the claim says Program.sample returns k independent draws
whenever the root expression's parameters are all supplied; in fact the
code evaluates `params.param_names` first, ParamVector defines no such
attribute, and every call raises AttributeError, whatever the program,
parameters, k or randomness. -/
theorem C2_program_sample_raises :
    ∀ (p : Program) (params : List (String × ℚ)) (k : Nat) (rng : Nat → ℚ),
      Program.sample p params k rng = .error (.attributeError "param_names") := by
  intro p params k rng
  have h : ¬ ("param_names" ∈ paramVectorAttrNames) := by decide
  simp [Program.sample, h]

/-- Claim C3 counterexample: an infer call proceeds and returns with a
resolved theta of 3/2, which lies outside [0, 1]; no failure occurs at
resolution time for a symbolic theta. -/
theorem C3_counterexample :
    infer (.FlipNode (.param "p")) env15 .TrueNode = (.ok (3/2), env15)
    ∧ ¬ ((3/2 : ℚ) ≤ 1) := by
  constructor
  · simp [infer, PureNode.eval, get_theta, EvalEnv.get_param, paramLookup, env15]
  · norm_num

/-- Claim C3 as amended: a literal theta outside [0, 1] fails at
FlipNode construction, and a literal inside [0, 1] or any symbolic
theta is accepted; but get_theta resolves a symbolic theta by plain
parameter lookup with no range validation, so infer proceeds with
whatever value the parameter vector holds. -/
theorem C3_amended :
    (∀ q : ℚ, ¬ (0 ≤ q ∧ q ≤ 1) → mkFlipNode (.lit q) = .error .thetaRange)
    ∧ (∀ q : ℚ, 0 ≤ q → q ≤ 1 → mkFlipNode (.lit q) = .ok (.FlipNode (.lit q)))
    ∧ (∀ s : String, mkFlipNode (.param s) = .ok (.FlipNode (.param s)))
    ∧ (∀ (s : String) (env : EvalEnv) (q : ℚ), env.get_param s = .ok q →
        get_theta (.param s) env = .ok q
        ∧ infer (.FlipNode (.param s)) env .TrueNode = (.ok q, env)) := by
  refine ⟨?_, ?_, ?_, ?_⟩
  · intro q h; simp [mkFlipNode, h]
  · intro q h0 h1; simp [mkFlipNode, h0, h1]
  · intro s; simp [mkFlipNode]
  · intro s env q h
    have hg : get_theta (.param s) env = .ok q := h
    refine ⟨hg, ?_⟩
    simp [infer, PureNode.eval, hg]

/-- Claim C3 amended witness: theta = 2 is rejected at construction;
theta = "p" with the parameter vector mapping p to 3/2 resolves to 3/2
without failure. -/
theorem C3_amended_witness :
    mkFlipNode (.lit 2) = .error .thetaRange
    ∧ get_theta (.param "p") env15 = .ok (3/2) := by
  refine ⟨C3_amended.1 2 (by norm_num), (C3_amended.2.2.2 "p" env15 (3/2) ?_).1⟩
  simp [EvalEnv.get_param, env15, paramLookup]

/-- Claim C6: for a literal theta in [0, 1], infer of Flip returns
theta on target True, 1 - theta on target False, and 0 on any target
that evaluates to a non-boolean value. -/
theorem C6_flip_infer :
    (∀ (q : ℚ) (env : EvalEnv), 0 ≤ q → q ≤ 1 →
      infer (.FlipNode (.lit q)) env .TrueNode = (.ok q, env)
      ∧ infer (.FlipNode (.lit q)) env .FalseNode = (.ok (1 - q), env))
    ∧ (∀ (q : ℚ) (env : EvalEnv) (t w : PureNode), 0 ≤ q → q ≤ 1 →
      t.eval env = .ok w → w ≠ .TrueNode → w ≠ .FalseNode →
      infer (.FlipNode (.lit q)) env t = (.ok 0, env)) := by
  constructor
  · intro q env h0 h1
    constructor <;> simp [infer, PureNode.eval, get_theta]
  · intro q env t w h0 h1 hev hT hF
    simp only [infer]
    rw [hev]
    cases w <;> simp_all

/-- Claim C6 witness: theta = 1/2 in the empty environment, with the
non-boolean target nil. -/
theorem C6_flip_infer_witness :
    infer (.FlipNode (.lit (1/2))) env0 .TrueNode = (.ok (1/2), env0)
    ∧ infer (.FlipNode (.lit (1/2))) env0 .FalseNode = (.ok (1 - 1/2), env0)
    ∧ infer (.FlipNode (.lit (1/2))) env0 .NilNode = (.ok 0, env0) := by
  refine ⟨(C6_flip_infer.1 (1/2) env0 (by norm_num) (by norm_num)).1,
    (C6_flip_infer.1 (1/2) env0 (by norm_num) (by norm_num)).2,
    C6_flip_infer.2 (1/2) env0 .NilNode .NilNode (by norm_num) (by norm_num) rfl
      (by decide) (by decide)⟩

/-- Claim C7: add_binding fails with the rebinding error when the name
is already present in the innermost scope; binding the same name in a
newly pushed scope succeeds and masks the outer binding; popping that
scope restores the environment, and with it the outer binding, exactly. -/
theorem C7_scope_binding :
    (∀ (env : EvalEnv) (name : String) (val w : PureNode) (s : Scope)
        (rest : List Scope), env.scopes = s :: rest → scopeLookup s name = some w →
      env.add_binding name val = .error (.rebind name))
    ∧ (∀ (env : EvalEnv) (name : String) (val : PureNode),
      (env.add_scope).add_binding name val = .ok (envWith env name val))
    ∧ (∀ (env : EvalEnv) (name : String) (val : PureNode),
      (envWith env name val).get_binding name = .ok val)
    ∧ (∀ (env : EvalEnv) (name : String) (val : PureNode),
      (envWith env name val).remove_scope = env)
    ∧ (∀ (env : EvalEnv) (name : String) (val w : PureNode),
      env.get_binding name = .ok w →
      ((envWith env name val).remove_scope).get_binding name = .ok w) := by
  refine ⟨?_, ?_, ?_, ?_, ?_⟩
  · intro env name val w s rest hsc hlk
    simp [EvalEnv.add_binding, hsc, hlk]
  · intro env name val
    exact add_binding_add_scope env name val
  · intro env name val
    simp [EvalEnv.get_binding, envWith, lookupScopes, scopeLookup]
  · intro env name val
    exact remove_scope_envWith env name val
  · intro env name val w h
    rw [remove_scope_envWith]
    exact h

/-- Claim C7 witness: in an environment whose single scope binds x to
True, re-binding x fails; binding x to False in a pushed scope masks
the outer binding, and after the pop the outer value True is visible
again. -/
theorem C7_scope_binding_witness :
    env9c.add_binding "x" .NilNode = .error (.rebind "x")
    ∧ (envWith env9c "x" .FalseNode).get_binding "x" = .ok .FalseNode
    ∧ ((envWith env9c "x" .FalseNode).remove_scope).get_binding "x" = .ok .TrueNode := by
  refine ⟨C7_scope_binding.1 env9c "x" .NilNode .TrueNode [("x", .TrueNode)] [] rfl
      (by decide),
    C7_scope_binding.2.2.1 env9c "x" .FalseNode,
    C7_scope_binding.2.2.2.2 env9c "x" .FalseNode .TrueNode rfl⟩

/-- Claim C8: possible_vals, infer and deriv leave the environment, and
with it the scope stack, exactly as they found it, on normal return and
on propagated failure alike (the result component carries the error in
that case, the environment component is unchanged either way). -/
theorem C8_env_restored :
    (∀ (n : EffectfulNode) (env : EvalEnv), (possible_vals n env).2 = env)
    ∧ (∀ (n : EffectfulNode) (env : EvalEnv) (val : PureNode),
      (infer n env val).2 = env)
    ∧ (∀ (n : EffectfulNode) (env : EvalEnv) (p : String) (val : PureNode),
      (deriv n env p val).2 = env) :=
  ⟨possible_vals_snd, infer_snd, deriv_snd⟩

/-- Claim C1: the claim states the Sequence law with infer(bound, env, v)
taken in the original environment.  The code instead computes it inside
the `with env.local_binding(x, v)` block.  At the concrete program P4
(whose assignment expression reads x freely) with the target False, the
code returns 1 while the claimed law yields 1/2, so the claim, read
against the code, is false; the law matches the comment inside
SequenceNode.infer and the convention of SequenceNode.deriv, so the
code is the slip. -/
theorem C1_seq_infer_env :
    (infer P4 env4 .FalseNode).1 = .ok 1
    ∧ inferSeqLaw "x" A4 (.ReturnNode (.VariableNode "x")) env4 .FalseNode = .ok (1/2)
    ∧ ((1 : ℚ) ≠ 1/2) := by
  refine ⟨?_, ?_, by norm_num⟩
  · simp [infer, inferLoop, possible_vals, pvLoop, PureNode.infer, PureNode.eval,
      EvalEnv.get_binding, lookupScopes, scopeLookup, EvalEnv.add_binding,
      EvalEnv.add_scope, EvalEnv.remove_scope, envWith, setUnion, get_theta,
      EvalEnv.get_param, paramLookup, P4, A4, env4, bind, Except.bind, pure,
      Except.pure]
  · simp [inferSeqLaw, infer, inferLoop, possible_vals, pvLoop, PureNode.infer,
      PureNode.eval, EvalEnv.get_binding, lookupScopes, scopeLookup,
      EvalEnv.add_binding, EvalEnv.add_scope, EvalEnv.remove_scope, envWith,
      setUnion, get_theta, EvalEnv.get_param, paramLookup, P4, A4, env4, bind,
      Except.bind, pure, Except.pure]
    norm_num

/-- Claim C4: probability mass over the boolean support should sum to
1; at the program P4 (possible values exactly True and False) in env4
the code assigns 1/2 to True and 1 to False, total 3/2, so mass is not
conserved.  All quantities here are dyadic, so exact rational
arithmetic coincides with Python float arithmetic on this input. -/
theorem C4_mass_not_conserved :
    (possible_vals P4 env4).1 = .ok [.TrueNode, .FalseNode]
    ∧ (infer P4 env4 .TrueNode).1 = .ok (1/2)
    ∧ (infer P4 env4 .FalseNode).1 = .ok 1
    ∧ ((1/2 : ℚ) + 1 ≠ 1) := by
  refine ⟨?_, ?_, ?_, by norm_num⟩ <;>
    simp [infer, inferLoop, possible_vals, pvLoop, PureNode.infer, PureNode.eval,
      EvalEnv.get_binding, lookupScopes, scopeLookup, EvalEnv.add_binding,
      EvalEnv.add_scope, EvalEnv.remove_scope, envWith, setUnion, get_theta,
      EvalEnv.get_param, paramLookup, P4, A4, env4, bind, Except.bind, pure,
      Except.pure] <;>
    norm_num

/-- Claim C5: deriv agrees with the reference recursive definition:
0 for Return; for Flip, 0 when theta is a literal or a different
parameter name, and on the matching name 1, -1 or 0 according to the
evaluated target; for Sequence, the product-rule sum over the possible
values of the assignment expression, with deriv and infer of the
assignment expression taken in the original environment and deriv and
infer of the continuation taken in the environment extended with the
binding. -/
theorem C5_deriv_reference :
    (∀ (v : PureNode) (env : EvalEnv) (p : String) (target : PureNode),
      deriv (.ReturnNode v) env p target = (.ok 0, env))
    ∧ (∀ (q : ℚ) (env : EvalEnv) (p : String) (target : PureNode),
      deriv (.FlipNode (.lit q)) env p target = (.ok 0, env))
    ∧ (∀ (s p : String) (env : EvalEnv) (target : PureNode), s ≠ p →
      deriv (.FlipNode (.param s)) env p target = (.ok 0, env))
    ∧ (∀ (s : String) (env : EvalEnv) (target : PureNode),
      target.eval env = .ok .TrueNode →
      deriv (.FlipNode (.param s)) env s target = (.ok 1, env))
    ∧ (∀ (s : String) (env : EvalEnv) (target : PureNode),
      target.eval env = .ok .FalseNode →
      deriv (.FlipNode (.param s)) env s target = (.ok (-1), env))
    ∧ (∀ (s : String) (env : EvalEnv) (target w : PureNode),
      target.eval env = .ok w → w ≠ .TrueNode → w ≠ .FalseNode →
      deriv (.FlipNode (.param s)) env s target = (.ok 0, env))
    ∧ (∀ (x : String) (bound rest : EffectfulNode) (p : String)
        (target : PureNode) (env : EvalEnv) (vs : List PureNode)
        (d1 e1 d2 e2 : PureNode → ℚ),
      (possible_vals bound env).1 = .ok vs →
      (∀ v ∈ vs, (deriv bound env p v).1 = .ok (d1 v)) →
      (∀ v ∈ vs, (infer bound env v).1 = .ok (e1 v)) →
      (∀ v ∈ vs, (deriv rest (envWith env x v) p target).1 = .ok (d2 v)) →
      (∀ v ∈ vs, (infer rest (envWith env x v) target).1 = .ok (e2 v)) →
      deriv (.SequenceNode x bound rest) env p target =
        (.ok ((vs.map (fun v => d1 v * e2 v + e1 v * d2 v)).sum), env)) := by
  refine ⟨?_, ?_, ?_, ?_, ?_, ?_, ?_⟩
  · intro v env p target; simp [deriv]
  · intro q env p target; simp [deriv]
  · intro s p env target hne; simp [deriv, hne]
  · intro s env target hev
    simp only [deriv, ne_eq, not_true_eq_false, if_false]
    rw [hev]
  · intro s env target hev
    simp only [deriv, ne_eq, not_true_eq_false, if_false]
    rw [hev]
  · intro s env target w hev hT hF
    simp only [deriv, ne_eq, not_true_eq_false, if_false]
    rw [hev]
    cases w <;> simp_all
  · intro x bound rest p target env vs d1 e1 d2 e2 hpv hd1 he1 hd2 he2
    have hp : possible_vals bound env = (.ok vs, env) :=
      pairEq _ _ _ hpv (possible_vals_snd bound env)
    simp only [deriv, hp]
    rw [derivLoop_val x bound rest p target env vs d1 e1 d2 e2 hd1 he1 hd2 he2 vs
      (fun v hv => hv) 0]
    rw [zero_add]

/-- Claim C5 witness: the program `x <- flip p; return x` at p = 1/2,
parameter p, target True: the possible values are True and False, the
factor functions are discharged concretely, and the product rule yields
derivative 1. -/
theorem C5_deriv_reference_witness :
    deriv (.SequenceNode "x" (.FlipNode (.param "p"))
        (.ReturnNode (.VariableNode "x"))) env5w "p" .TrueNode = (.ok 1, env5w) := by
  have h := C5_deriv_reference.2.2.2.2.2.2 "x" (.FlipNode (.param "p"))
    (.ReturnNode (.VariableNode "x")) "p" .TrueNode env5w [.TrueNode, .FalseNode]
    (fun v => if v = .TrueNode then 1 else -1) (fun _ => 1/2)
    (fun _ => 0) (fun v => if v = .TrueNode then 1 else 0)
    (by simp [possible_vals])
    (by
      intro v hv
      simp only [List.mem_cons, List.not_mem_nil, or_false] at hv
      rcases hv with rfl | rfl <;>
        simp [deriv, PureNode.eval])
    (by
      intro v hv
      simp only [List.mem_cons, List.not_mem_nil, or_false] at hv
      rcases hv with rfl | rfl <;>
        simp [infer, PureNode.eval, get_theta, EvalEnv.get_param, env5w,
          paramLookup] <;>
        norm_num)
    (by
      intro v hv
      simp only [List.mem_cons, List.not_mem_nil, or_false] at hv
      rcases hv with rfl | rfl <;> simp [deriv])
    (by
      intro v hv
      simp only [List.mem_cons, List.not_mem_nil, or_false] at hv
      rcases hv with rfl | rfl <;>
        simp [infer, PureNode.infer, PureNode.eval, EvalEnv.get_binding,
          lookupScopes, scopeLookup, envWith, bind, Except.bind])
  have hFT : PureNode.FalseNode ≠ PureNode.TrueNode := by decide
  rw [h]
  norm_num [hFT]

/-- Claim C9 counterexample: eval is not idempotent.  In env9, where a
is bound to the unevaluated conditional `if tt then tt else ff`,
eval of the variable a succeeds and returns that conditional, but eval
of the result reduces it further to True, so the first result is not a
fixed point of eval. -/
theorem C9_counterexample :
    PureNode.eval (.VariableNode "a") env9 = .ok C9bind
    ∧ PureNode.eval C9bind env9 ≠ .ok C9bind := by
  constructor
  · simp [PureNode.eval, env9, C9bind, EvalEnv.get_binding, lookupScopes, scopeLookup]
  · simp [PureNode.eval, env9, C9bind, bind, Except.bind]

/-- Claim C9 as amended: eval is idempotent in every environment whose
visible bindings are themselves fixed points of eval (canonical values,
which is what the data model prescribes for bindings): whenever
eval(n, env) succeeds, its result evaluates to itself. -/
theorem C9_amended (n : PureNode) (env : EvalEnv)
    (hcanon : ∀ (x : String) (v : PureNode),
      env.get_binding x = .ok v → v.eval env = .ok v)
    (w : PureNode) (h : n.eval env = .ok w) : w.eval env = .ok w := by
  induction n generalizing w with
  | VariableNode name => exact hcanon name w h
  | TrueNode =>
    simp [PureNode.eval] at h
    subst h
    rfl
  | FalseNode =>
    simp [PureNode.eval] at h
    subst h
    rfl
  | NilNode =>
    simp [PureNode.eval] at h
    subst h
    rfl
  | IfElseNode c t f ihc iht ihf =>
    simp only [PureNode.eval, bind, Except.bind] at h
    cases hc : c.eval env with
    | error e => rw [hc] at h; cases h
    | ok cv =>
      rw [hc] at h
      cases cv with
      | TrueNode => exact iht w h
      | FalseNode => exact ihf w h
      | VariableNode nm => cases h
      | IfElseNode a b c2 => cases h
      | ConsNode a b => cases h
      | NilNode => cases h
  | ConsNode hd tl ihh iht =>
    simp only [PureNode.eval, bind, Except.bind] at h
    cases hh : hd.eval env with
    | error e => rw [hh] at h; cases h
    | ok hv =>
      rw [hh] at h
      cases ht : tl.eval env with
      | error e => rw [ht] at h; cases h
      | ok tv =>
        rw [ht] at h
        simp only [Except.ok.injEq] at h
        subst h
        have h1 := ihh hv hh
        have h2 := iht tv ht
        simp [PureNode.eval, bind, Except.bind, h1, h2]

/-- Claim C9 amended witness: in env9c every visible binding is
canonical, eval of `cons x nil` succeeds, and its value evaluates to
itself. -/
theorem C9_amended_witness :
    PureNode.eval (.ConsNode .TrueNode .NilNode) env9c
      = .ok (.ConsNode .TrueNode .NilNode) := by
  apply C9_amended (.ConsNode (.VariableNode "x") .NilNode) env9c
  · intro y v h
    by_cases hxy : "x" = y
    · subst hxy
      simp only [EvalEnv.get_binding, env9c, lookupScopes, scopeLookup,
        if_pos] at h
      cases h
      rfl
    · simp [EvalEnv.get_binding, env9c, lookupScopes, scopeLookup, hxy] at h
  · simp [PureNode.eval, env9c, EvalEnv.get_binding, lookupScopes, scopeLookup,
      bind, Except.bind]

/-- Claim C10: on the program `x <- flip 0.5; x <- flip 0.5; return x`,
sample fails with the rebinding error from any environment with at
least one scope (whether or not x is already bound in it), because
SequenceNode.sample adds bindings to the current scope, while infer on
the same program returns normally (probability 1/2 for target True),
because its traversal pushes a fresh scope per binding. -/
theorem C10_sample_infer_disagree :
    ∀ (env : EvalEnv) (rng : Nat → ℚ) (ix : Nat) (s : Scope) (rest : List Scope),
      env.scopes = s :: rest →
      (sample prog10 env rng ix).1 = .error (.rebind "x")
      ∧ (infer prog10 env .TrueNode).1 = .ok (1/2) := by
  intro env rng ix s rest hs
  constructor
  · simp only [prog10, sample, get_theta]
    rcases hlk : scopeLookup s "x" with _ | w
    · simp [EvalEnv.add_binding, hs, hlk, sample, get_theta, scopeLookup, boolean]
    · simp [EvalEnv.add_binding, hs, hlk]
  · simp [prog10, infer, inferLoop, possible_vals, pvLoop, PureNode.infer,
      PureNode.eval, EvalEnv.get_binding, lookupScopes, scopeLookup,
      EvalEnv.add_binding, EvalEnv.add_scope, EvalEnv.remove_scope, envWith,
      setUnion, get_theta, EvalEnv.get_param, paramLookup, bind, Except.bind,
      pure, Except.pure]
    norm_num

/-- Claim C10 witness: from a fresh environment with one empty scope
and the constant-zero randomness stream, sample fails with the
rebinding error and infer returns 1/2. -/
theorem C10_witness :
    (sample prog10 env0 (fun _ => 0) 0).1 = .error (.rebind "x")
    ∧ (infer prog10 env0 .TrueNode).1 = .ok (1/2) :=
  C10_sample_infer_disagree env0 (fun _ => 0) 0 [] [] rfl

end Pyppl